import Mathlib

/-!
Verification development for the attorney-verification repository
(two sources: src/app.py, the multi-state Streamlit dashboard, and
src/backend.py, the Flask production backend).

The Python code is shallowly embedded: every pure helper becomes an
executable Lean function translated from the source; the Selenium-driven
parts (search results, fetched profile pages, heading elements, structured
field lookups) are supplied by explicit environment records, exactly the
data the loops in the source consume.  Strings are modelled over their
character lists; Python string operations used by the code (`in`, `split`,
`strip`, `lower`, slicing, `re` patterns restricted to the concrete
patterns appearing in the source) are given faithful ASCII models below.
-/

/-! ## Python string primitives -/

/-- Model of Python `str.lower()` on the ASCII fragment: uppercase letters
map to lowercase, all other characters are unchanged. -/
def lowerChar (c : Char) : Char :=
  match c with
  | 'A' => 'a' | 'B' => 'b' | 'C' => 'c' | 'D' => 'd' | 'E' => 'e'
  | 'F' => 'f' | 'G' => 'g' | 'H' => 'h' | 'I' => 'i' | 'J' => 'j'
  | 'K' => 'k' | 'L' => 'l' | 'M' => 'm' | 'N' => 'n' | 'O' => 'o'
  | 'P' => 'p' | 'Q' => 'q' | 'R' => 'r' | 'S' => 's' | 'T' => 't'
  | 'U' => 'u' | 'V' => 'v' | 'W' => 'w' | 'X' => 'x' | 'Y' => 'y'
  | 'Z' => 'z' | c => c

/-- Python `s.lower()` (ASCII model). -/
def pyLower (s : String) : String :=
  String.mk (s.data.map lowerChar)

/-- Does the list `l` start with `pre`? (helper for the substring test). -/
def startsList (pre : List Char) (l : List Char) : Bool :=
  match pre, l with
  | [], _ => true
  | _ :: _, [] => false
  | a :: as, b :: bs => a == b && startsList as bs

/-- Is `needle` a contiguous sublist of `hay`?  (helper for `pyIn`). -/
def subIn (needle : List Char) (hay : List Char) : Bool :=
  match hay with
  | [] => needle.isEmpty
  | _ :: rest => startsList needle hay || subIn needle rest

/-- Model of the Python membership test `needle in hay` on strings:
contiguous-substring containment (the empty string is contained in
every string, as in Python). -/
def pyIn (needle hay : String) : Bool :=
  subIn needle.data hay.data

/-- Python `s[:n]` for a string: the first `n` characters (all of `s`
when `s` is shorter). -/
def pySlice (s : String) (n : Nat) : String :=
  String.mk (s.data.take n)

/-- Python `s.strip()`: drop whitespace from both ends (structural
model; the built-in `String.trim` is not kernel-reducible). -/
def pyTrim (s : String) : String :=
  String.mk (((s.data.dropWhile Char.isWhitespace).reverse.dropWhile
    Char.isWhitespace).reverse)

/-- Model of Python `re.split` with a single-character class (as in
`re.split(r'[.\s]', s)` in the source): split at every matching
character, keeping empty pieces; the result is never empty. -/
def splitKeep (p : Char → Bool) : List Char → List (List Char)
  | [] => [[]]
  | c :: rest =>
    if p c then [] :: splitKeep p rest
    else
      match splitKeep p rest with
      | [] => [[c]]
      | piece :: pieces => (c :: piece) :: pieces

/-- Model of Python `s.split()` (no argument): split on whitespace runs,
discarding empty pieces. -/
def pySplitL (l : List Char) : List (List Char) :=
  (splitKeep Char.isWhitespace l).filter (fun x => !x.isEmpty)

/-- Python `s.split()` at the `String` level. -/
def pySplit (s : String) : List String :=
  (pySplitL s.data).map String.mk

/-- Python `sep.join(xs)`. -/
def pyJoin (sep : String) : List String → String
  | [] => ""
  | [x] => x
  | x :: y :: rest => x ++ sep ++ pyJoin sep (y :: rest)

/-! ## Cell values from the CSV

`pandas` hands the per-row code either a string cell or a non-string
value (a missing cell surfaces as the float `nan`; a missing column is
defaulted to `''` by `row.get`).  `PyVal` models exactly these two
shapes, and `pyStr` models Python `str()` on them (`str(nan) = "nan"`). -/

inductive PyVal where
  | strV (s : String)
  | nanV
deriving DecidableEq, Repr

/-- Python `str(v)` for the two modelled cell shapes. -/
def pyStr : PyVal → String
  | .strV s => s
  | .nanV => "nan"

/-! ## Identity Normalizer (src/app.py `definitive_clean_name`,
`get_name_parts`; src/backend.py `get_name_parts_for_matching`) -/

/-- The suffix alternatives of the regex in `definitive_clean_name`
(src/app.py line 68), in source order. -/
def suffixList : List String := ["jr", "sr", "ii", "iii", "iv", "esq"]

/-- One alternative of the suffix-stripping regex
`,?\s+(jr|sr|ii|iii|iv|esq)\.?$` (case-insensitive), tried against the
reversed character list of the input with a trailing period already
removed: the string must end with the suffix word, immediately preceded
by at least one whitespace character, optionally preceded by a comma.
Returns the remaining (still reversed) characters when the alternative
matches. -/
def tryStripSuffixRev (rcore : List Char) (w : String) : Option (List Char) :=
  let rw := (w.data.map lowerChar).reverse
  if (rcore.take rw.length).map lowerChar == rw then
    let rest := rcore.drop rw.length
    match rest with
    | c :: _ =>
      if c.isWhitespace then
        let rest2 := rest.dropWhile Char.isWhitespace
        match rest2 with
        | ',' :: t => some t
        | _ => some rest2
      else none
    | [] => none
  else none

/-- Model of `re.sub(r',?\s+(jr|sr|ii|iii|iv|esq)\.?$', '', s, flags=re.I).strip()`
from `definitive_clean_name` (src/app.py line 68).  Because the pattern is
anchored at the end of the string and none of the alternatives overlap a
whitespace boundary, the substitution removes at most one trailing
occurrence; `strip` is applied afterwards in both cases, as in the source. -/
def stripNameSuffix (s : String) : String :=
  let r := s.data.reverse
  let rcore := match r with
    | '.' :: t => t
    | _ => r
  match suffixList.findSome? (tryStripSuffixRev rcore) with
  | some rest => pyTrim (String.mk rest.reverse)
  | none => pyTrim s

/-- Python `s.replace('.', '')` (src/app.py line 69). -/
def removeDots (s : String) : String :=
  String.mk (s.data.filter (fun c => c != '.'))

/-- src/app.py `definitive_clean_name` (lines 66-74): non-string input
yields `""`; otherwise strip a trailing name suffix, remove periods,
split on whitespace, and take the first token unless it is a
single-letter initial followed by further tokens, in which case take the
second token. -/
def definitive_clean_name (v : PyVal) : String :=
  match v with
  | .nanV => ""
  | .strV s =>
    let s1 := stripNameSuffix s
    let s2 := removeDots s1
    match pySplit s2 with
    | [] => ""
    | [p] => p
    | p0 :: p1 :: _ => if p0.length = 1 then p1 else p0

/-- src/app.py `get_name_parts` (lines 76-79): the first-name token is
`definitive_clean_name(first).lower()`; the last-name token is the first
whitespace-separated word of the stripped last-name field when that
field is a non-empty string, else `""`, lower-cased. -/
def get_name_parts (first last : PyVal) : String × String :=
  let clean_last :=
    match last with
    | .strV s =>
      if pyTrim s ≠ "" then
        match pySplit (pyTrim s) with
        | w :: _ => w
        | [] => ""
      else ""
    | .nanV => ""
  (pyLower (definitive_clean_name first), pyLower clean_last)

/-- The character class of `re.split(r'[.\s]', ...)` in
src/backend.py `get_name_parts_for_matching`. -/
def dotOrWs (c : Char) : Bool :=
  c == '.' || c.isWhitespace

/-- Python `xs[-1]` on a piece list (the split result is never empty;
the `[]` case is unreachable and returns the empty piece). -/
def lastPiece : List (List Char) → List Char
  | [] => []
  | [x] => x
  | _ :: y :: rest => lastPiece (y :: rest)

/-- src/backend.py `get_name_parts_for_matching` (lines 56-59): the
first-name token is the first `[.\s]`-split piece of `str(first_name)`
(a bare initial is kept), the last-name token is the last `[.\s]`-split
piece of `str(last_name)`, both lower-cased. -/
def get_name_parts_for_matching (first last : PyVal) : String × String :=
  let fs := splitKeep dotOrWs (pyStr first).data
  let ls := splitKeep dotOrWs (pyStr last).data
  let f0 := match fs with
    | w :: _ => w
    | [] => []
  (pyLower (String.mk f0), pyLower (String.mk (lastPiece ls)))

/-! ## Email and website extraction

Models of the two `re` uses shared by both matchers:
`re.findall(r'[\w\.-]+@[\w\.-]+', page_text)` and the two
`re.search(r'Website:...')` patterns. -/

/-- The character class `[\w.-]` of the email pattern (ASCII `\w`). -/
def emailChar (c : Char) : Bool :=
  c.isAlphanum || c == '_' || c == '.' || c == '-'

/-- Fuel-indexed scanner for `re.findall(r'[\w\.-]+@[\w\.-]+', text)`.
Because `@` is not in the class, the regex backtracking collapses to:
a match starts at a class character, takes the maximal class run, then
requires `@` followed by a non-empty maximal class run; scanning resumes
after the match (non-overlapping, leftmost).  The fuel (one unit per
consumed character) only forces structural recursion; `findEmails`
supplies enough for the whole input. -/
def findEmailsF : Nat → List Char → List String
  | 0, _ => []
  | _ + 1, [] => []
  | fuel + 1, c :: rest =>
    if emailChar c then
      let run1 := (c :: rest).takeWhile emailChar
      match (c :: rest).dropWhile emailChar with
      | '@' :: r2 =>
        let run2 := r2.takeWhile emailChar
        if run2.isEmpty then findEmailsF fuel r2
        else String.mk (run1 ++ '@' :: run2) :: findEmailsF fuel (r2.dropWhile emailChar)
      | r1 => findEmailsF fuel r1
    else findEmailsF fuel rest

/-- Model of `re.findall(r'[\w\.-]+@[\w\.-]+', page_text)`. -/
def findEmails (page_text : String) : List String :=
  findEmailsF page_text.data.length page_text.data

/-- Match a literal pattern (given lower-case) case-insensitively against
the front of `l`, returning the remaining characters on success. -/
def matchLit (lit : List Char) (l : List Char) : Option (List Char) :=
  match lit, l with
  | [], rest => some rest
  | _ :: _, [] => none
  | a :: as, c :: cs => if lowerChar c == a then matchLit as cs else none

/-- Try `Website:\s*<a[^>]*>([^<]+)</a>` (case-insensitive) anchored at
the start of `l`; returns the captured group.  Greedy classes collapse
to maximal runs because each class excludes the following literal. -/
def tryAnchorAt (l : List Char) : Option (List Char) := do
  let r1 ← matchLit "website:".data l
  let r2 := r1.dropWhile Char.isWhitespace
  let r3 ← matchLit "<a".data r2
  let r4 := r3.dropWhile (fun c => c != '>')
  let r5 ← matchLit ">".data r4
  let grp := r5.takeWhile (fun c => c != '<')
  if grp.isEmpty then none
  else
    let _ ← matchLit "</a>".data (r5.dropWhile (fun c => c != '<'))
    some grp

/-- Leftmost search for the anchor-tag website pattern. -/
def searchAnchor : List Char → Option (List Char)
  | [] => none
  | c :: t =>
    match tryAnchorAt (c :: t) with
    | some g => some g
    | none => searchAnchor t

/-- Try `Website:\s*(\S+)` (case-insensitive) anchored at the start of
`l`; returns the captured group. -/
def tryBareAt (l : List Char) : Option (List Char) := do
  let r1 ← matchLit "website:".data l
  let grp := (r1.dropWhile Char.isWhitespace).takeWhile (fun c => !c.isWhitespace)
  if grp.isEmpty then none else some grp

/-- Leftmost search for the bare website pattern. -/
def searchBare : List Char → Option (List Char)
  | [] => none
  | c :: t =>
    match tryBareAt (c :: t) with
    | some g => some g
    | none => searchBare t

/-- Model of the website extraction shared by both matchers
(src/app.py line 88, src/backend.py lines 67-69): the anchor-tag pattern
first, else the bare pattern, group lower-cased; `none` when neither
matches. -/
def extractWebsite (page_text : String) : Option String :=
  match searchAnchor page_text.data with
  | some g => some (pyLower (String.mk g))
  | none =>
    match searchBare page_text.data with
    | some g => some (pyLower (String.mk g))
    | none => none

/-! ## Profile Matcher, Policy A (src/app.py `get_match_signals`,
`is_name_only_match`) -/

/-- src/app.py `get_match_signals` (lines 81-104): the three primary
boolean signals, collected in evaluation order. -/
def get_match_signals (first last firm : String) (page_text : String) : List String :=
  let sig1 := if firm ≠ "" ∧ pyIn firm page_text then ["Firm Name"] else []
  let page_emails := findEmails page_text
  let page_website := extractWebsite page_text
  let email_name_match := page_emails.any (fun e => pyIn last e && pyIn (pySlice first 4) e)
  let sig2 := if email_name_match then ["Name in Email"] else []
  let website_name_match := match page_website with
    | some w => pyIn last w && pyIn (pySlice first 4) w
    | none => false
  let sig3 := if website_name_match then ["Name in Website"] else []
  sig1 ++ sig2 ++ sig3

/-- src/app.py `is_name_only_match` (lines 106-114): some h1/h2/h3
heading text contains both the full last-name token and the full
first-name token as substrings (heading text lower-cased, as in the
source). -/
def is_name_only_match (first last : String) (headings : List String) : Bool :=
  headings.any (fun h => pyIn last (pyLower h) && pyIn first (pyLower h))

/-- The per-candidate evaluation shared by the California and Georgia
loops in src/app.py (lines 183-188 and 253-258): primary signals first;
the heading fallback is consulted only when the signal list is empty,
and sets the distinct name-only flag. -/
def evalCandidate (first last firm : String) (page_text : String)
    (headings : List String) : List String × Bool :=
  let sigs := get_match_signals first last firm page_text
  if sigs.isEmpty && is_name_only_match first last headings then
    (sigs ++ ["Name Only Fallback"], true)
  else (sigs, false)

/-! ## Profile Matcher, Policy B (src/backend.py `get_match_confidence`) -/

/-- The five confidence components of src/backend.py lines 62-65, with
the source's `"Yes"`/`"No"` string values, in dict insertion order. -/
structure Confidence where
  emailExact : String
  lastInEmail : String
  firstInEmail : String
  lastInWebsite : String
  firstInWebsite : String
deriving DecidableEq, Repr

/-- The dict values in insertion order (src/backend.py lines 62-65). -/
def confList (c : Confidence) : List String :=
  [c.emailExact, c.lastInEmail, c.firstInEmail, c.lastInWebsite, c.firstInWebsite]

/-- `sum(1 for v in confidence.values() if v == "Yes")` (line 87). -/
def countYes (c : Confidence) : Nat :=
  (confList c).countP (fun v => v == "Yes")

/-- Python `e.split('@')[0]`: the characters before the first `@`. -/
def emailLocal (e : String) : String :=
  String.mk (e.data.takeWhile (fun c => c != '@'))

/-- The guard of the short-circuit loop in src/backend.py lines 71-78:
the CSV email contains `@` and some extracted page email has the same
local part (byte equality). -/
def exactEmailHit (csv_email page_text : String) : Bool :=
  csv_email.data.contains '@' &&
    (findEmails page_text).any (fun e => emailLocal e == emailLocal csv_email)

/-- The scoring pass of src/backend.py lines 80-88 (reached when the
exact-email loop does not return). -/
def confidenceScorePass (first last : String) (page_emails : List String)
    (page_website : Option String) : Bool × Confidence :=
  let lem := if page_emails.any (fun e => pyIn last e) then "Yes" else "No"
  let fem := if page_emails.any (fun e => pyIn (pySlice first 3) e) then "Yes" else "No"
  let lw := match page_website with
    | some w => if pyIn last w then "Yes" else "No"
    | none => "No"
  let fw := match page_website with
    | some w => if pyIn (pySlice first 3) w then "Yes" else "No"
    | none => "No"
  let conf : Confidence := ⟨"No", lem, fem, lw, fw⟩
  (countYes conf ≥ 2, conf)

/-- src/backend.py `get_match_confidence` (lines 61-88): if the CSV
email has an `@` and its local part byte-equals the local part of some
extracted page email, return `(True, ...)` immediately with the three
email components forced to `"Yes"` and the website components left at
their initial `"No"`; otherwise score the four remaining components and
match iff at least two fired. -/
def get_match_confidence (first last csv_email page_text : String) :
    Bool × Confidence :=
  let page_emails := findEmails page_text
  let page_website := extractWebsite page_text
  if exactEmailHit csv_email page_text then
    (true, ⟨"Yes", "Yes", "Yes", "No", "No"⟩)
  else
    confidenceScorePass first last page_emails page_website

/-! ## Status Resolver (src/app.py lines 203-212, src/backend.py 152-156) -/

/-- The fixed precedence order of src/app.py line 204. -/
def status_hierarchy : List String :=
  ["deceased", "disbarred", "resigned", "suspended", "inactive"]

/-- The sort key of src/app.py line 206:
`status_hierarchy.index(s.lower()) if s.lower() in status_hierarchy else len(status_hierarchy)`.
`List.indexOf` returns the list length when the element is absent,
exactly as the source's fallback. -/
def hierKey (s : String) : Nat :=
  status_hierarchy.indexOf (pyLower s)

/-- Model of Python `list(set(xs))` for the status lists: the distinct
labels.  CPython iterates a `str` set in hash order, which is
unspecified across runs; the development therefore only proves facts
about the resolver that are independent of this order (membership,
key-minimality, the unique-minimum case, and the lexicographically
sorted comment). -/
def pyDistinct (xs : List String) : List String :=
  xs.dedup

/-- src/app.py line 206: `sorted(list(set(all_statuses)), key=...)` — a
stable sort by `hierKey` (Python `sorted` is stable). -/
def sortByHierKey (xs : List String) : List String :=
  List.insertionSort (fun a b => hierKey a ≤ hierKey b) xs

/-- src/app.py lines 205-208: the first element of the key-sorted
distinct statuses, defaulting to `"Not Found"` when there are none. -/
def resolveNonActiveStatus (all_statuses : List String) : String :=
  match sortByHierKey (pyDistinct all_statuses) with
  | [] => "Not Found"
  | s :: _ => s

/-- src/app.py line 211: `sorted(list(set(all_statuses)))` — the
distinct labels in lexicographic order (Python compares strings by code
point; Mathlib's linear order on `String` is the same lexicographic
order on the character lists). -/
def sortLex (xs : List String) : List String :=
  List.insertionSort (fun a b => a ≤ b) xs

/-- The comment text of src/app.py line 211. -/
def multiStatusComment (all_statuses : List String) : String :=
  "Multiple non-active statuses found: " ++ pyJoin ", " (sortLex (pyDistinct all_statuses))

/-! ## Match Resolution Pipeline -/

/-- One row of a directory search result: its status label and its
profile link. -/
structure CandRow where
  status : String
  link : String
deriving DecidableEq, Repr

/-- The per-record output dictionary, restricted to the keys the
pipelines write.  `matchSignals`, `nameMatchOnly` and `comments` are
absent from the initial dict in the source; the model carries them from
the start with the neutral values `[]`, `""` and `none`. -/
structure ResultData where
  name : String
  state : String
  firmName : String
  verifiedStatus : String
  disciplineFound : String
  profileLink : String
  unmatchedLinks : String
  matchSignals : List String
  nameMatchOnly : String
  comments : Option String
deriving DecidableEq, Repr

/-- The first-match scan shared by all three candidate loops
(src/app.py lines 178-199 and 248-272, src/backend.py lines 160-175):
visit the candidates in list order, stop at the first one satisfying
`matched`.  Returns the visited candidates (in visit order) and the
matching candidate, if any. -/
def scanFirst (matched : α → Bool) : List α → List α × Option α
  | [] => ([], none)
  | l :: ls =>
    if matched l then ([l], some l)
    else
      let r := scanFirst matched ls
      (l :: r.1, r.2)

/-- src/app.py line 173: the profile links of the rows whose status
label lower-cases to `active`, in row order. -/
def activeLinks (rows : List CandRow) : List String :=
  (rows.filter (fun r => pyLower r.status == "active")).map (fun r => r.link)

/-- Environment for one California record in src/app.py: what the
browser supplies to `process_california_attorney`.  `noResults` is the
"returned no results" banner; `rows` are the `tblAttorney` rows;
`pageText` is the lower-cased body text of a profile link (the source
lower-cases it at line 181, so the model stores it post-`lower`);
`headings` are the h1/h2/h3 texts of that page; `disciplineCell` is the
`innerHTML` of the "Present"-row discipline cell, `none` when the
selector fails. -/
structure CAEnv where
  noResults : Bool
  rows : List CandRow
  pageText : String → String
  headings : String → List String
  disciplineCell : String → Option String

/-- The per-link candidate evaluation of the California loop. -/
def caEval (env : CAEnv) (first last firm : String) (link : String) :
    List String × Bool :=
  evalCandidate first last firm (env.pageText link) (env.headings link)

/-- The match test driving the California loop (`if match_signals:`). -/
def caMatched (env : CAEnv) (first last firm : String) (link : String) : Bool :=
  !(caEval env first last firm link).1.isEmpty

/-- src/app.py lines 195-198: the discipline lookup on a matched
California profile. -/
def caDiscipline (cell : Option String) : String :=
  match cell with
  | some html => if pyIn "&nbsp;" html then "No" else "Yes"
  | none => "Discipline Info Not Found (CA)"

/-- src/app.py `process_california_attorney` (lines 153-217), happy path
(search interaction succeeded; the `Search Error (CA)` handler is the
surrounding `except`).  Returns the updated result dict together with
the list of profile links whose pages were fetched and run through the
Profile Matcher, in visit order. -/
def process_california_attorney (env : CAEnv) (first last firm : String)
    (rd : ResultData) : ResultData × List String :=
  if env.noResults then
    ({ rd with verifiedStatus := "Not Found on CalBar" }, [])
  else
    let all_statuses := env.rows.map CandRow.status
    let active := activeLinks env.rows
    if active ≠ [] then
      let rd1 := { rd with verifiedStatus := "Active" }
      let scanned := scanFirst (caMatched env first last firm) active
      match scanned.2 with
      | some link =>
        let ev := caEval env first last firm link
        ({ rd1 with
            profileLink := link
            matchSignals := ev.1
            nameMatchOnly := if ev.2 then "Yes" else "No"
            disciplineFound := caDiscipline (env.disciplineCell link) },
         scanned.1)
      | none =>
        ({ rd1 with
            disciplineFound := "Match Not Confirmed"
            unmatchedLinks := pyJoin " | " active },
         scanned.1)
    else
      let rd1 := { rd with verifiedStatus := resolveNonActiveStatus all_statuses }
      let rd2 :=
        if (pyDistinct all_statuses).length > 1 then
          { rd1 with comments := some (multiStatusComment all_statuses) }
        else rd1
      ({ rd2 with disciplineFound := "Not Applicable (Non-Active)" }, [])

/-- Environment for one Georgia record in src/app.py:
`found` is whether the wait for member-directory profile links
succeeded; `urls` are the profile links; `pageText` (lower-cased body),
`headings`, and the two structured field lookups per url. -/
structure GAEnv where
  found : Bool
  urls : List String
  pageText : String → String
  headings : String → List String
  statusField : String → Option String
  disciplineField : String → Option String

/-- The per-url candidate evaluation of the Georgia loop. -/
def gaEval (env : GAEnv) (first last firm : String) (url : String) :
    List String × Bool :=
  evalCandidate first last firm (env.pageText url) (env.headings url)

/-- The match test driving the Georgia loop. -/
def gaMatched (env : GAEnv) (first last firm : String) (url : String) : Bool :=
  !(gaEval env first last firm url).1.isEmpty

/-- src/app.py `process_georgia_attorney` (lines 219-278), happy path.
Returns the updated result dict and the urls visited by the matcher
loop, in visit order. -/
def process_georgia_attorney (env : GAEnv) (first last firm : String)
    (rd : ResultData) : ResultData × List String :=
  if !env.found then
    ({ rd with verifiedStatus := "Not Found on GA Bar" }, [])
  else
    let scanned := scanFirst (gaMatched env first last firm) env.urls
    match scanned.2 with
    | some url =>
      let ev := gaEval env first last firm url
      ({ rd with
          profileLink := url
          matchSignals := ev.1
          nameMatchOnly := if ev.2 then "Yes" else "No"
          verifiedStatus := match env.statusField url with
            | some s => pyTrim s
            | none => "Status Not Found (GA)"
          disciplineFound := match env.disciplineField url with
            | some s => pyTrim s
            | none => "Discipline Info Not Found (GA)" },
       scanned.1)
    | none =>
      ({ rd with
          verifiedStatus := "Match Not Confirmed"
          unmatchedLinks := pyJoin " | " env.urls },
       scanned.1)

/-- Environment for one record of the backend pipeline
(src/backend.py `run_verification_process`): the "returned no results"
banner, the `tblAttorney` rows, the lower-cased body text per profile
link, and the discipline-cell lookup per link. -/
structure BEEnv where
  noResults : Bool
  rows : List CandRow
  pageText : String → String
  disciplineCell : String → Option String

/-- The per-record output dict of the backend, restricted to the keys
the scraping logic writes (src/backend.py lines 118-124). -/
structure BEResult where
  verifiedStatus : String
  disciplineFound : String
  conf : Confidence
  profileLink : String
deriving DecidableEq, Repr

/-- The initial backend result dict (src/backend.py lines 118-124). -/
def beInit : BEResult :=
  { verifiedStatus := "Error Processing"
    disciplineFound := "Not Checked"
    conf := ⟨"No", "No", "No", "No", "No"⟩
    profileLink := "Not Found" }

/-- src/backend.py line 152-153: `Active` if any status lower-cases to
`active`, else the first status, else `Not Found`. -/
def beOverallStatus (statuses : List String) : String :=
  if statuses.any (fun s => pyLower s == "active") then "Active"
  else
    match statuses with
    | s :: _ => s
    | [] => "Not Found"

/-- The match test driving the backend loop (`if is_match:`). -/
def beMatched (env : BEEnv) (first last csv_email : String) (link : String) : Bool :=
  (get_match_confidence first last csv_email (env.pageText link)).1

/-- src/backend.py lines 171-174: the discipline lookup on a matched
backend profile. -/
def beDiscipline (cell : Option String) : String :=
  match cell with
  | some html => if pyIn "&nbsp;" html then "No" else "Yes"
  | none => "Discipline Info Not Found"

/-- The per-record core of src/backend.py `run_verification_process`
(lines 136-179), happy path: PASS 1 resolves the overall status from
all rows (no narrowing to active rows); PASS 2 scans every profile
link in row order for the first confident match.  Returns the result
dict and the links visited by PASS 2, in visit order. -/
def backendRecord (env : BEEnv) (first last csv_email : String) :
    BEResult × List String :=
  if env.noResults then
    ({ beInit with verifiedStatus := "Not Found on CalBar" }, [])
  else
    let statuses := env.rows.map CandRow.status
    let links := env.rows.map CandRow.link
    let rd1 := { beInit with verifiedStatus := beOverallStatus statuses }
    let scanned := scanFirst (beMatched env first last csv_email) links
    match scanned.2 with
    | some link =>
      let c := (get_match_confidence first last csv_email (env.pageText link)).2
      ({ rd1 with
          conf := c
          profileLink := link
          disciplineFound := beDiscipline (env.disciplineCell link) },
       scanned.1)
    | none =>
      ({ rd1 with disciplineFound := "Match Not Confirmed" }, scanned.1)

/-! ## Per-record runner (src/app.py `verification_thread_target`,
src/backend.py `run_verification_process` row loop)

The runner threads the observable mutable state that is not part of the
result — the log line list — explicitly, so that independence of the
result from accumulated state is a provable statement. -/

/-- One input CSV row (the columns the per-record code reads). -/
structure RecordRow where
  firstName : PyVal
  lastName : PyVal
  firmName : PyVal
  email : PyVal
deriving Repr

/-- The initial result dict of src/app.py lines 309-313. -/
def initResult (row : RecordRow) (state : String) : ResultData :=
  { name := pyStr row.firstName ++ " " ++ pyStr row.lastName
    state := state
    firmName := pyStr row.firmName
    verifiedStatus := "Error Processing"
    disciplineFound := "Not Checked"
    profileLink := "Not Found"
    unmatchedLinks := ""
    matchSignals := []
    nameMatchOnly := ""
    comments := none }

/-- One California record of src/app.py `verification_thread_target`
(lines 303-332): build the initial dict, derive the identity, run the
state pipeline, then attach the Reporting Facade comment.  `ai` is the
facade stub (`get_ai_summary` with fixed API behaviour); `log` is the
log-line state, which the record appends to. -/
def runRecordCA (env : CAEnv) (ai : ResultData → String) (row : RecordRow)
    (log : List String) : ResultData × List String :=
  let rd0 := initResult row "CALIFORNIA"
  let np := get_name_parts row.firstName row.lastName
  let firm := pyLower (pyTrim (pyStr row.firmName))
  let step := process_california_attorney env np.1 np.2 firm rd0
  let rd2 := { step.1 with comments := some (ai step.1) }
  (rd2, log ++ ["Processing: " ++ rd0.name])

/-- One record of src/backend.py `run_verification_process`
(lines 104-183) with the log-line state threaded explicitly. -/
def runRecordBE (env : BEEnv) (row : RecordRow) (log : List String) :
    BEResult × List String :=
  let np := get_name_parts_for_matching row.firstName row.lastName
  let csv_email := pyLower (pyTrim (pyStr row.email))
  let step := backendRecord env np.1 np.2 csv_email
  (step.1, log ++ ["Processing: " ++ pyStr row.firstName ++ " " ++ pyStr row.lastName])

/-! ## Helper lemmas -/

/-- Lower-casing never turns a character into (or out of) whitespace. -/
theorem lowerChar_isWhitespace (c : Char) :
    (lowerChar c).isWhitespace = c.isWhitespace := by
  unfold lowerChar
  split <;> rfl

/-- The empty string is a Python-substring of every string. -/
theorem pyIn_empty_left (s : String) : pyIn "" s = true := by
  unfold pyIn
  show subIn [] s.data = true
  induction s.data with
  | nil => rfl
  | cons c rest ih => simp [subIn, startsList]

/-- No piece produced by `splitKeep p` contains a `p`-character. -/
theorem splitKeep_pieces (p : Char → Bool) (l : List Char) :
    ∀ piece ∈ splitKeep p l, ∀ c ∈ piece, p c = false := by
  induction l with
  | nil =>
    intro piece hp c hc
    simp [splitKeep] at hp
    subst hp
    simp at hc
  | cons a rest ih =>
    intro piece hp c hc
    by_cases ha : p a
    · simp [splitKeep, ha] at hp
      rcases hp with h | h
      · subst h; simp at hc
      · exact ih piece h c hc
    · simp only [splitKeep, ha, if_neg, Bool.false_eq_true, if_false] at hp
      rcases hsk : splitKeep p rest with _ | ⟨piece0, pieces⟩
      · rw [hsk] at hp
        simp at hp
        subst hp
        simp at hc
        subst hc
        simpa using ha
      · rw [hsk] at hp
        simp at hp
        rcases hp with h | h
        · subst h
          simp at hc
          rcases hc with h | h
          · subst h; simpa using ha
          · exact ih piece0 (by rw [hsk]; exact List.mem_cons_self _ _) c h
        · exact ih piece (by rw [hsk]; exact List.mem_cons_of_mem _ h) c hc

/-- Characters of a `pySplit` piece are never whitespace. -/
theorem pySplit_noWs (s : String) :
    ∀ w ∈ pySplit s, ∀ c ∈ w.data, c.isWhitespace = false := by
  intro w hw c hc
  simp only [pySplit, pySplitL, List.mem_map, List.mem_filter] at hw
  rcases hw with ⟨piece, ⟨hmem, -⟩, rfl⟩
  exact splitKeep_pieces Char.isWhitespace s.data piece hmem c hc

/-- Lower-casing a whitespace-free string keeps it whitespace-free. -/
theorem pyLower_noWs {s : String} (h : ∀ c ∈ s.data, c.isWhitespace = false) :
    ∀ c ∈ (pyLower s).data, c.isWhitespace = false := by
  intro c hc
  simp only [pyLower, List.mem_map] at hc
  rcases hc with ⟨d, hd, rfl⟩
  rw [lowerChar_isWhitespace]
  exact h d hd

/-- `pySplit` of the empty string is empty. -/
theorem pySplit_empty : pySplit "" = [] := rfl

/-- The result of `definitive_clean_name` contains no whitespace. -/
theorem definitive_clean_name_spec (s : String) :
    definitive_clean_name (.strV s) = "" ∨
      definitive_clean_name (.strV s) ∈ pySplit (removeDots (stripNameSuffix s)) := by
  simp only [definitive_clean_name]
  rcases h : pySplit (removeDots (stripNameSuffix s)) with _ | ⟨p0, _ | ⟨p1, rest⟩⟩
  · exact Or.inl rfl
  · exact Or.inr (List.mem_singleton_self p0)
  · right
    dsimp only
    split
    · exact List.mem_cons_of_mem _ (List.mem_cons_self _ _)
    · exact List.mem_cons_self _ _

/-- The result of `definitive_clean_name` contains no whitespace. -/
theorem definitive_clean_name_noWs (v : PyVal) :
    ∀ c ∈ (definitive_clean_name v).data, c.isWhitespace = false := by
  rcases v with s | _
  · intro c hc
    rcases definitive_clean_name_spec s with h | h
    · rw [h] at hc; simp at hc
    · exact pySplit_noWs _ _ h c hc
  · intro c hc; simp [definitive_clean_name] at hc

/-- Every candidate visited by the first-match scan comes from the input
list. -/
theorem scanFirst_visited_mem (matched : α → Bool) (l : List α) :
    ∀ x ∈ (scanFirst matched l).1, x ∈ l := by
  induction l with
  | nil => intro x hx; simp [scanFirst] at hx
  | cons a rest ih =>
    intro x hx
    by_cases h : matched a
    · simp [scanFirst, h] at hx
      simp [hx]
    · simp [scanFirst, h] at hx
      rcases hx with h | h
      · simp [h]
      · exact List.mem_cons_of_mem _ (ih x h)

/-- The key-sorted distinct statuses: head exists for a non-empty input,
belongs to it, and minimizes the hierarchy key over it. -/
theorem resolveNonActive_min (xs : List String) (hne : xs ≠ []) :
    resolveNonActiveStatus xs ∈ xs ∧
      ∀ s ∈ xs, hierKey (resolveNonActiveStatus xs) ≤ hierKey s := by
  have hd : pyDistinct xs ≠ [] := by
    simp only [pyDistinct, ne_eq, List.dedup_eq_nil]
    exact hne
  have hperm : List.Perm (sortByHierKey (pyDistinct xs)) (pyDistinct xs) :=
    List.perm_insertionSort _ _
  have hsorted : List.Sorted (fun a b => hierKey a ≤ hierKey b)
      (sortByHierKey (pyDistinct xs)) := by
    haveI : IsTotal String (fun a b => hierKey a ≤ hierKey b) :=
      ⟨fun a b => Nat.le_total _ _⟩
    haveI : IsTrans String (fun a b => hierKey a ≤ hierKey b) :=
      ⟨fun a b c => Nat.le_trans⟩
    exact List.sorted_insertionSort _ _
  rcases hs : sortByHierKey (pyDistinct xs) with _ | ⟨a, t⟩
  · rw [hs] at hperm
    exact absurd hperm.symm.eq_nil hd
  · have hres : resolveNonActiveStatus xs = a := by
      simp [resolveNonActiveStatus, hs]
    rw [hres]
    constructor
    · have : a ∈ sortByHierKey (pyDistinct xs) := by
        rw [hs]; exact List.mem_cons_self _ _
      exact List.mem_dedup.mp (hperm.mem_iff.mp this)
    · intro s hsx
      have hsmem : s ∈ sortByHierKey (pyDistinct xs) :=
        hperm.mem_iff.mpr (List.mem_dedup.mpr hsx)
      rw [hs] at hsmem
      rcases List.mem_cons.mp hsmem with h | h
      · rw [h]
      · rw [hs] at hsorted
        exact List.rel_of_sorted_cons hsorted s h

/-- The lexicographically sorted distinct statuses: a permutation of the
distinct statuses, sorted under the string order. -/
theorem sortLex_spec (xs : List String) :
    List.Perm (sortLex xs) xs ∧ List.Sorted (fun a b : String => a ≤ b) (sortLex xs) := by
  refine ⟨List.perm_insertionSort _ _, ?_⟩
  haveI : IsTotal String (fun a b : String => a ≤ b) := ⟨fun a b => le_total a b⟩
  haveI : IsTrans String (fun a b : String => a ≤ b) :=
    ⟨fun a b c hab hbc => le_trans hab hbc⟩
  exact List.sorted_insertionSort _ _

/-- If no candidate matches, the scan visits the whole list, in order,
and reports no match. -/
theorem scanFirst_none (matched : α → Bool) (l : List α)
    (h : ∀ x ∈ l, matched x = false) : scanFirst matched l = (l, none) := by
  induction l with
  | nil => rfl
  | cons a rest ih =>
    have ha := h a (List.mem_cons_self _ _)
    simp [scanFirst, ha, ih (fun x hx => h x (List.mem_cons_of_mem _ hx))]

/-- If position `i` holds the first matching candidate, the scan visits
exactly the first `i + 1` candidates and reports the one at `i`. -/
theorem scanFirst_first (matched : α → Bool) :
    ∀ (l : List α) (i : Nat) (hi : i < l.length),
      matched (l.get ⟨i, hi⟩) = true →
      (∀ j (hj : j < i), matched (l.get ⟨j, Nat.lt_trans hj hi⟩) = false) →
      scanFirst matched l = (l.take (i + 1), some (l.get ⟨i, hi⟩)) := by
  intro l
  induction l with
  | nil => intro i hi; simp at hi
  | cons a rest ih =>
    intro i hi hm hb
    cases i with
    | zero =>
      have hm2 : matched a = true := hm
      simp [scanFirst, hm2]
    | succ n =>
      have ha : matched a = false := by
        have := hb 0 (Nat.succ_pos n)
        simpa using this
      have hrest := ih n (Nat.lt_of_succ_lt_succ hi)
        (by simpa using hm)
        (fun j hj => by
          have := hb (j + 1) (Nat.succ_lt_succ hj)
          simpa using this)
      simp [scanFirst, ha, hrest]

/-- C4 (Match Resolution Pipeline CandidateScan): the first-match scan
`scanFirst` — the loop shared by `process_california_attorney`,
`process_georgia_attorney` and `backendRecord` — visits candidates in
exactly the order of the input list: when no candidate matches it
visits the whole list in order and reports no match, and when the first
matching candidate sits at position `i` it visits exactly the first
`i + 1` candidates (`take (i+1)`) and stops, so no later candidate is
ever fetched or evaluated (first-match-wins, not best-match). -/
theorem claim_C4 (matched : α → Bool) (l : List α) :
    ((∀ x ∈ l, matched x = false) → scanFirst matched l = (l, none)) ∧
    (∀ i (hi : i < l.length),
      matched (l.get ⟨i, hi⟩) = true →
      (∀ j (hj : j < i), matched (l.get ⟨j, Nat.lt_trans hj hi⟩) = false) →
      scanFirst matched l = (l.take (i + 1), some (l.get ⟨i, hi⟩))) :=
  ⟨scanFirst_none matched l,
   fun i hi hm hb => scanFirst_first matched l i hi hm hb⟩

/-- Witness for C4: on the candidate list `["u", "v", "w"]` with exactly
`"v"` matching, the scan visits `["u", "v"]` only and reports `"v"`. -/
theorem claim_C4_witness :
    scanFirst (fun s => s == "v") ["u", "v", "w"] = (["u", "v"], some "v") := by
  have h := (claim_C4 (fun s => s == "v") ["u", "v", "w"]).2 1 (by decide)
    (by decide)
    (fun j hj => by
      have hj0 : j = 0 := by omega
      subst hj0
      rfl)
  simpa using h

/-- C5 (zero candidates): in all three pipelines, when the directory
search produced no candidates the record's verified status becomes
`Not Found on <source>`, the pipeline returns that single terminal
result immediately, and no candidate page is visited, so the Profile
Matcher is never invoked (the visited-link list is empty). -/
theorem claim_C5 (envCA : CAEnv) (envGA : GAEnv) (envBE : BEEnv)
    (f l fi ce : String) (rd : ResultData) :
    (envCA.noResults = true →
      (process_california_attorney envCA f l fi rd).1.verifiedStatus =
          "Not Found on CalBar" ∧
        (process_california_attorney envCA f l fi rd).2 = []) ∧
    (envGA.found = false →
      (process_georgia_attorney envGA f l fi rd).1.verifiedStatus =
          "Not Found on GA Bar" ∧
        (process_georgia_attorney envGA f l fi rd).2 = []) ∧
    (envBE.noResults = true →
      (backendRecord envBE f l ce).1.verifiedStatus = "Not Found on CalBar" ∧
        (backendRecord envBE f l ce).2 = []) := by
  refine ⟨fun h => ?_, fun h => ?_, fun h => ?_⟩
  · simp [process_california_attorney, h]
  · simp [process_georgia_attorney, h]
  · simp [backendRecord, h]

/-- Witness for C5: a concrete no-results environment for each of the
three pipelines. -/
theorem claim_C5_witness :
    (process_california_attorney ⟨true, [], fun _ => "", fun _ => [], fun _ => none⟩
        "jo" "sm" "fi" (initResult ⟨.strV "Jo", .strV "Sm", .strV "Fi", .strV "e"⟩
          "CALIFORNIA")).1.verifiedStatus = "Not Found on CalBar" ∧
    (process_georgia_attorney ⟨false, [], fun _ => "", fun _ => [], fun _ => none, fun _ => none⟩
        "jo" "sm" "fi" (initResult ⟨.strV "Jo", .strV "Sm", .strV "Fi", .strV "e"⟩
          "GEORGIA")).1.verifiedStatus = "Not Found on GA Bar" ∧
    (backendRecord ⟨true, [], fun _ => "", fun _ => none⟩ "jo" "sm" "e@x.com").1.verifiedStatus =
      "Not Found on CalBar" := by
  have h := claim_C5 ⟨true, [], fun _ => "", fun _ => [], fun _ => none⟩
    ⟨false, [], fun _ => "", fun _ => [], fun _ => none, fun _ => none⟩
    ⟨true, [], fun _ => "", fun _ => none⟩ "jo" "sm" "fi" "e@x.com"
    (initResult ⟨.strV "Jo", .strV "Sm", .strV "Fi", .strV "e"⟩ "CALIFORNIA")
  exact ⟨(h.1 rfl).1, by
    have h2 := claim_C5 ⟨true, [], fun _ => "", fun _ => [], fun _ => none⟩
      ⟨false, [], fun _ => "", fun _ => [], fun _ => none, fun _ => none⟩
      ⟨true, [], fun _ => "", fun _ => none⟩ "jo" "sm" "fi" "e@x.com"
      (initResult ⟨.strV "Jo", .strV "Sm", .strV "Fi", .strV "e"⟩ "GEORGIA")
    exact (h2.2.1 rfl).1, (h.2.2 rfl).1⟩

/-- The visited-link list of the California pipeline: empty when the
active narrowing is empty, else the first-match scan over the active
links. -/
theorem processCA_visited (env : CAEnv) (f l fi : String) (rd : ResultData)
    (h : env.noResults = false) :
    (process_california_attorney env f l fi rd).2 =
      if activeLinks env.rows = [] then []
      else (scanFirst (caMatched env f l fi) (activeLinks env.rows)).1 := by
  unfold process_california_attorney
  simp only [h, Bool.false_eq_true, if_false]
  by_cases hact : activeLinks env.rows = []
  · simp [hact]
  · simp only [hact, ne_eq, not_false_eq_true, if_true, if_false]
    cases hs : (scanFirst (caMatched env f l fi) (activeLinks env.rows)).2 <;>
      simp [hs]

/-- The California pipeline result when the narrowing is empty: the
non-active terminal branch. -/
theorem processCA_nonActive (env : CAEnv) (f l fi : String) (rd : ResultData)
    (h : env.noResults = false) (hact : activeLinks env.rows = []) :
    (process_california_attorney env f l fi rd).1.disciplineFound =
        "Not Applicable (Non-Active)" ∧
      (process_california_attorney env f l fi rd).1.verifiedStatus =
        resolveNonActiveStatus (env.rows.map CandRow.status) ∧
      (process_california_attorney env f l fi rd).1.comments =
        (if (pyDistinct (env.rows.map CandRow.status)).length > 1 then
          some (multiStatusComment (env.rows.map CandRow.status))
        else rd.comments) := by
  unfold process_california_attorney
  simp only [h, Bool.false_eq_true, if_false, hact, ne_eq, not_true_eq_false]
  by_cases hlen : (pyDistinct (env.rows.map CandRow.status)).length > 1 <;>
    simp [hlen]

/-- C2 (active narrowing, amended): in the California app pipeline
(`process_california_attorney`), whenever the search produced result
rows, every candidate page visited by the Profile Matcher loop belongs
to the active-labeled links, and when no label is case-insensitively
`active` no candidate is visited at all, the Discipline Found field is
set to `Not Applicable (Non-Active)`, and the record terminates.  (The
backend pipeline violates the original claim: see the counterexample.) -/
theorem claim_C2 (env : CAEnv) (f l fi : String) (rd : ResultData)
    (h : env.noResults = false) :
    (∀ x ∈ (process_california_attorney env f l fi rd).2, x ∈ activeLinks env.rows) ∧
    (activeLinks env.rows = [] →
      (process_california_attorney env f l fi rd).2 = [] ∧
      (process_california_attorney env f l fi rd).1.disciplineFound =
        "Not Applicable (Non-Active)") := by
  constructor
  · intro x hx
    rw [processCA_visited env f l fi rd h] at hx
    by_cases hact : activeLinks env.rows = []
    · rw [hact] at hx; simp at hx
    · rw [if_neg hact] at hx
      exact scanFirst_visited_mem _ _ x hx
  · intro hact
    refine ⟨?_, (processCA_nonActive env f l fi rd h hact).1⟩
    rw [processCA_visited env f l fi rd h, if_pos hact]

/-- Counterexample for C2 as frozen: the backend pipeline
(src/backend.py PASS 2) runs the Profile Matcher on a candidate whose
status label is `Inactive` — the matcher is not restricted to
active-labeled candidates — and with no active label it sets
Discipline Found to `Match Not Confirmed`, not
`Not Applicable (Non-Active)`. -/
theorem claim_C2_cex :
    (backendRecord ⟨false, [⟨"Inactive", "L1"⟩], fun _ => "", fun _ => none⟩
        "jo" "sm" "e@x.com").2 = ["L1"] ∧
    pyLower "Inactive" ≠ "active" ∧
    (backendRecord ⟨false, [⟨"Inactive", "L1"⟩], fun _ => "", fun _ => none⟩
        "jo" "sm" "e@x.com").1.disciplineFound = "Match Not Confirmed" := by
  exact ⟨rfl, by decide, rfl⟩

/-- Witness for C2: a two-row environment (one Active, one Inactive)
where the visited link is certified active-labeled, and a no-active
environment taking the non-active terminal branch. -/
theorem claim_C2_witness :
    "A1" ∈ activeLinks [⟨"Active", "A1"⟩, ⟨"Inactive", "B1"⟩] ∧
    ((process_california_attorney
        ⟨false, [⟨"Suspended", "S1"⟩], fun _ => "", fun _ => [], fun _ => none⟩
        "jo" "sm" "fi"
        (initResult ⟨.strV "Jo", .strV "Sm", .strV "Fi", .strV "e"⟩ "CALIFORNIA")).2 = [] ∧
      (process_california_attorney
        ⟨false, [⟨"Suspended", "S1"⟩], fun _ => "", fun _ => [], fun _ => none⟩
        "jo" "sm" "fi"
        (initResult ⟨.strV "Jo", .strV "Sm", .strV "Fi", .strV "e"⟩ "CALIFORNIA")).1.disciplineFound =
        "Not Applicable (Non-Active)") := by
  constructor
  · exact (claim_C2 ⟨false, [⟨"Active", "A1"⟩, ⟨"Inactive", "B1"⟩],
      fun _ => "", fun _ => [], fun _ => none⟩ "jo" "sm" "fi"
      (initResult ⟨.strV "Jo", .strV "Sm", .strV "Fi", .strV "e"⟩ "CALIFORNIA") rfl).1
      "A1" (by decide)
  · exact (claim_C2 ⟨false, [⟨"Suspended", "S1"⟩], fun _ => "", fun _ => [], fun _ => none⟩
      "jo" "sm" "fi"
      (initResult ⟨.strV "Jo", .strV "Sm", .strV "Fi", .strV "e"⟩ "CALIFORNIA") rfl).2 rfl

/-- C3 (Status Resolver, amended): in the California app pipeline, for a
record with result rows none of which is active, the resolved verified
status is one of the candidate status labels and minimizes the fixed
precedence key (`[deceased, disbarred, resigned, suspended, inactive]`
compared case-insensitively, absent labels keyed after all listed ones);
whenever a unique distinct label attains the minimal key the resolver
returns exactly that label (ties between distinct labels are broken by
the unspecified Python set iteration order, not lexicographically); and
when more than one distinct label exists the comment lists the full
distinct set sorted lexicographically.  (The backend pipeline instead
returns the first row's label with no precedence: see the
counterexample.) -/
theorem claim_C3 (env : CAEnv) (f l fi : String) (rd : ResultData)
    (h : env.noResults = false) (hact : activeLinks env.rows = []) :
    (env.rows ≠ [] →
      (process_california_attorney env f l fi rd).1.verifiedStatus ∈
          env.rows.map CandRow.status ∧
        ∀ s ∈ env.rows.map CandRow.status,
          hierKey (process_california_attorney env f l fi rd).1.verifiedStatus ≤
            hierKey s) ∧
    (∀ sStar ∈ env.rows.map CandRow.status,
      (∀ s ∈ env.rows.map CandRow.status, s ≠ sStar → hierKey sStar < hierKey s) →
      (process_california_attorney env f l fi rd).1.verifiedStatus = sStar) ∧
    ((pyDistinct (env.rows.map CandRow.status)).length > 1 →
      (process_california_attorney env f l fi rd).1.comments =
          some (multiStatusComment (env.rows.map CandRow.status)) ∧
        List.Perm (sortLex (pyDistinct (env.rows.map CandRow.status)))
          (pyDistinct (env.rows.map CandRow.status)) ∧
        List.Sorted (fun a b : String => a ≤ b)
          (sortLex (pyDistinct (env.rows.map CandRow.status)))) := by
  have hspec := processCA_nonActive env f l fi rd h hact
  refine ⟨fun hne => ?_, fun sStar hmem hstrict => ?_, fun hlen => ?_⟩
  · rw [hspec.2.1]
    exact resolveNonActive_min _ (by simpa using hne)
  · rw [hspec.2.1]
    have hne : env.rows.map CandRow.status ≠ [] := by
      intro hnil
      rw [hnil] at hmem
      simp at hmem
    obtain ⟨hhead, hmin⟩ := resolveNonActive_min (env.rows.map CandRow.status) hne
    by_contra hneq
    exact absurd (hmin sStar hmem)
      (Nat.not_le_of_lt (hstrict _ hhead hneq))
  · refine ⟨?_, (sortLex_spec _).1, (sortLex_spec _).2⟩
    rw [hspec.2.2, if_pos hlen]

/-- Counterexample for C3 as frozen: the backend resolver
(src/backend.py line 153) returns the first row's label `Suspended`
even though the distinct label `Deceased` is present with a strictly
lower precedence index. -/
theorem claim_C3_cex :
    (backendRecord
        ⟨false, [⟨"Suspended", "L1"⟩, ⟨"Deceased", "L2"⟩], fun _ => "", fun _ => none⟩
        "jo" "sm" "e@x.com").1.verifiedStatus = "Suspended" ∧
    hierKey "Deceased" < hierKey "Suspended" ∧
    "Deceased" ∈
      ([⟨"Suspended", "L1"⟩, ⟨"Deceased", "L2"⟩] : List CandRow).map CandRow.status := by
  exact ⟨rfl, by decide, by decide⟩

/-- Witness for C3: on the labels `Suspended, Deceased, Resigned` the
app resolver returns `Deceased`, the unique label of minimal precedence
index. -/
theorem claim_C3_witness :
    (process_california_attorney
        ⟨false, [⟨"Suspended", "L1"⟩, ⟨"Deceased", "L2"⟩, ⟨"Resigned", "L3"⟩],
          fun _ => "", fun _ => [], fun _ => none⟩
        "jo" "sm" "fi"
        (initResult ⟨.strV "Jo", .strV "Sm", .strV "Fi", .strV "e"⟩
          "CALIFORNIA")).1.verifiedStatus = "Deceased" := by
  exact (claim_C3
    ⟨false, [⟨"Suspended", "L1"⟩, ⟨"Deceased", "L2"⟩, ⟨"Resigned", "L3"⟩],
      fun _ => "", fun _ => [], fun _ => none⟩
    "jo" "sm" "fi"
    (initResult ⟨.strV "Jo", .strV "Sm", .strV "Fi", .strV "e"⟩ "CALIFORNIA")
    rfl rfl).2.1 "Deceased" (by decide) (by decide)

/-- The scoring pass leaves the exact-email component at `"No"` and
thresholds the component count at two. -/
theorem confidenceScorePass_spec (f l : String) (es : List String)
    (w : Option String) :
    (confidenceScorePass f l es w).2.emailExact = "No" ∧
      (confidenceScorePass f l es w).1 =
        decide (2 ≤ countYes (confidenceScorePass f l es w).2) := by
  unfold confidenceScorePass
  exact ⟨rfl, rfl⟩

/-- C1 (Profile Matcher Policy B): `get_match_confidence` short-circuits
to an immediate confirmed match as soon as the CSV email's local part
byte-equals the local part of some extracted page email (the returned
component map forces the three email components to `Yes` and leaves the
website components at `No`); otherwise the exact component stays `No`
and the verdict is true exactly when at least two of the five
components fired, so a single fired component is not a match and two
fired components are. -/
theorem claim_C1 (f l ce pt : String) :
    ((ce.data.contains '@' = true ∧
        ∃ e ∈ findEmails pt, emailLocal e = emailLocal ce) →
      get_match_confidence f l ce pt = (true, ⟨"Yes", "Yes", "Yes", "No", "No"⟩)) ∧
    (¬ (ce.data.contains '@' = true ∧
        ∃ e ∈ findEmails pt, emailLocal e = emailLocal ce) →
      (get_match_confidence f l ce pt).2.emailExact = "No" ∧
      ((get_match_confidence f l ce pt).1 = true ↔
        2 ≤ countYes (get_match_confidence f l ce pt).2) ∧
      (countYes (get_match_confidence f l ce pt).2 = 1 →
        (get_match_confidence f l ce pt).1 = false) ∧
      (countYes (get_match_confidence f l ce pt).2 = 2 →
        (get_match_confidence f l ce pt).1 = true)) := by
  have hiff : exactEmailHit ce pt = true ↔
      (ce.data.contains '@' = true ∧
        ∃ e ∈ findEmails pt, emailLocal e = emailLocal ce) := by
    simp [exactEmailHit, List.any_eq_true]
  constructor
  · intro hc
    have hb : exactEmailHit ce pt = true := hiff.mpr hc
    simp [get_match_confidence, hb]
  · intro hc
    have hb : exactEmailHit ce pt = false := by
      rcases Bool.eq_false_or_eq_true (exactEmailHit ce pt) with hx | hx
      · exact absurd (hiff.mp hx) hc
      · exact hx
    have hred : get_match_confidence f l ce pt =
        confidenceScorePass f l (findEmails pt) (extractWebsite pt) := by
      simp [get_match_confidence, hb]
    rw [hred]
    obtain ⟨h1, h2⟩ := confidenceScorePass_spec f l (findEmails pt) (extractWebsite pt)
    refine ⟨h1, ?_, ?_, ?_⟩
    · rw [h2]; exact decide_eq_true_iff
    · intro hcount; rw [h2, hcount]; rfl
    · intro hcount; rw [h2, hcount]; rfl

/-- Witness for C1: a page email whose local part equals the CSV
email's local part triggers the short-circuit. -/
theorem claim_C1_witness :
    get_match_confidence "jo" "sm" "bob@x.com" "mail bob@y.org" =
      (true, ⟨"Yes", "Yes", "Yes", "No", "No"⟩) :=
  (claim_C1 "jo" "sm" "bob@x.com" "mail bob@y.org").1 (by decide)

/-- C6 (name-only fallback): the heading fallback of the app pipelines
is consulted only when the three primary signals produced nothing (when
some primary signal fired, the candidate evaluation ignores the
headings entirely and the name-only flag is false); when the primary
signals are empty the fallback decides the candidate, firing exactly
when some h1/h2/h3 heading contains both the full last-name token and
the full first-name token as substrings, and a fallback match carries
the distinct flag; and the California pipeline records the flag as
`Yes`/`No` from the matching candidate's evaluation. -/
theorem claim_C6 (f l fi pt : String) (hs : List String) :
    (get_match_signals f l fi pt ≠ [] →
      ∀ hs2 : List String,
        evalCandidate f l fi pt hs2 = (get_match_signals f l fi pt, false)) ∧
    (get_match_signals f l fi pt = [] →
      evalCandidate f l fi pt hs =
        (if is_name_only_match f l hs then (["Name Only Fallback"], true)
         else ([], false))) ∧
    (is_name_only_match f l hs = true ↔
      ∃ h ∈ hs, pyIn l (pyLower h) = true ∧ pyIn f (pyLower h) = true) ∧
    (∀ (env : CAEnv) (rd : ResultData) (u : String),
      env.noResults = false →
      (scanFirst (caMatched env f l fi) (activeLinks env.rows)).2 = some u →
      (process_california_attorney env f l fi rd).1.nameMatchOnly =
        (if (caEval env f l fi u).2 then "Yes" else "No")) := by
  refine ⟨fun hne hs2 => ?_, fun he => ?_, ?_, fun env rd u hnr hscan => ?_⟩
  · unfold evalCandidate
    have : (get_match_signals f l fi pt).isEmpty = false := by
      simpa [List.isEmpty_iff] using hne
    simp [this]
  · unfold evalCandidate
    rw [he]
    by_cases hno : is_name_only_match f l hs <;> simp [hno]
  · simp [is_name_only_match, List.any_eq_true, Bool.and_eq_true]
  · have hact : activeLinks env.rows ≠ [] := by
      intro hnil
      rw [hnil] at hscan
      simp [scanFirst] at hscan
    unfold process_california_attorney
    simp only [hnr, Bool.false_eq_true, if_false, hact, ne_eq,
      not_false_eq_true, if_true]
    rw [hscan]

/-- Witness for C6: with empty primary signals and a heading holding
both name tokens, the fallback fires and carries the distinct flag. -/
theorem claim_C6_witness :
    evalCandidate "jo" "sm" "" "" ["Jo Sm Heading"] =
      (["Name Only Fallback"], true) := by
  have h := (claim_C6 "jo" "sm" "" "" ["Jo Sm Heading"]).2.1 (by decide)
  rw [h]
  decide

/-- C7 (initial-skipping, amended): in the app normalizer
(`get_name_parts` over `definitive_clean_name`), the last-name token is
the first whitespace-separated word of the raw last-name field,
lower-cased; and on the first-name side, after suffix stripping and
period removal, a leading single-letter token followed by further
tokens is discarded in favour of the next token, otherwise the first
token is kept.  (The backend normalizer `get_name_parts_for_matching`
violates the original claim: it keeps bare initials and takes the last
`[.\s]`-piece of the last name; see the counterexample.) -/
theorem claim_C7 (f ls : String) :
    (∀ w rest, pySplit (pyTrim ls) = w :: rest →
      (get_name_parts (.strV f) (.strV ls)).2 = pyLower w) ∧
    (∀ p0 p1 rest,
      pySplit (removeDots (stripNameSuffix f)) = p0 :: p1 :: rest →
      (p0.length = 1 →
        (get_name_parts (.strV f) (.strV ls)).1 = pyLower p1) ∧
      (p0.length ≠ 1 →
        (get_name_parts (.strV f) (.strV ls)).1 = pyLower p0)) ∧
    (∀ p0, pySplit (removeDots (stripNameSuffix f)) = [p0] →
      (get_name_parts (.strV f) (.strV ls)).1 = pyLower p0) := by
  refine ⟨fun w rest hw => ?_, fun p0 p1 rest hsplit => ⟨fun h1 => ?_, fun h1 => ?_⟩,
    fun p0 hsplit => ?_⟩
  · have hne : pyTrim ls ≠ "" := by
      intro h0
      rw [h0, pySplit_empty] at hw
      exact absurd hw (by simp)
    simp [get_name_parts, hne, hw]
  · simp [get_name_parts, definitive_clean_name, hsplit, h1]
  · simp [get_name_parts, definitive_clean_name, hsplit, h1]
  · simp [get_name_parts, definitive_clean_name, hsplit]

/-- Counterexample for C7 as frozen: the backend normalizer keeps the
bare initial `j` as the first-name token although a longer first name
(`Robert`) exists, and returns the last word `jones` of the last-name
field rather than its first word `smith`. -/
theorem claim_C7_cex :
    get_name_parts_for_matching (.strV "J. Robert") (.strV "Smith Jones") =
        ("j", "jones") ∧
      ("j" : String).length = 1 ∧ ("jones" : String) ≠ pyLower "Smith" := by
  exact ⟨rfl, rfl, by decide⟩

/-- Witness for C7: the app normalizer skips the initial `J.` in favour
of `Robert` and takes the first word of the last-name field. -/
theorem claim_C7_witness :
    (get_name_parts (.strV "J. Robert") (.strV "Smith Jones")).1 = pyLower "Robert" ∧
      (get_name_parts (.strV "J. Robert") (.strV "Smith Jones")).2 = pyLower "Smith" := by
  have h := claim_C7 "J. Robert" "Smith Jones"
  exact ⟨(h.2.1 "J" "Robert" [] (by decide)).1 (by decide),
    h.1 "Smith" ["Jones"] (by decide)⟩

/-- The last piece of a piece list is the empty piece or a member. -/
theorem lastPiece_mem_or (l : List (List Char)) :
    lastPiece l = [] ∨ lastPiece l ∈ l := by
  induction l with
  | nil => exact Or.inl rfl
  | cons a as ih =>
    rcases as with _ | ⟨b, bs⟩
    · exact Or.inr (by simp [lastPiece])
    · have hstep : lastPiece (a :: b :: bs) = lastPiece (b :: bs) := rfl
      rw [hstep]
      rcases ih with h | h
      · exact Or.inl h
      · exact Or.inr (List.mem_cons_of_mem _ h)

/-- A character of a `dotOrWs`-split piece is not whitespace. -/
theorem dotOrWs_piece_noWs {piece : List Char} {l : List Char}
    (hmem : piece ∈ splitKeep dotOrWs l) : ∀ c ∈ piece, c.isWhitespace = false := by
  intro c hc
  have := splitKeep_pieces dotOrWs l piece hmem c hc
  simp [dotOrWs] at this
  exact this.2

/-- The last-name token of the app normalizer is the lower-casing of a
whitespace-free string. -/
theorem clean_last_spec (first last : PyVal) :
    ∃ t, (get_name_parts first last).2 = pyLower t ∧
      ∀ c ∈ t.data, c.isWhitespace = false := by
  rcases last with s | _
  · by_cases htrim : pyTrim s = ""
    · refine ⟨"", ?_, by simp⟩
      simp [get_name_parts, htrim]
    · rcases hw : pySplit (pyTrim s) with _ | ⟨w, rest⟩
      · refine ⟨"", ?_, by simp⟩
        simp [get_name_parts, htrim, hw]
      · refine ⟨w, ?_, pySplit_noWs _ w (by rw [hw]; exact List.mem_cons_self _ _)⟩
        simp [get_name_parts, htrim, hw]
  · exact ⟨"", rfl, by simp⟩

/-- C8 (normalizer totality, amended): both normalizers are total
functions of the modelled cell values (they never raise) and neither
returned token ever contains whitespace; in the app normalizer a
missing or non-string field yields an empty token; in the backend
normalizer a missing field yields an empty token but a non-string (NaN)
field yields the string rendering `nan`. -/
theorem claim_C8 (first last : PyVal) :
    (∀ c ∈ (get_name_parts first last).1.data, c.isWhitespace = false) ∧
    (∀ c ∈ (get_name_parts first last).2.data, c.isWhitespace = false) ∧
    (∀ c ∈ (get_name_parts_for_matching first last).1.data, c.isWhitespace = false) ∧
    (∀ c ∈ (get_name_parts_for_matching first last).2.data, c.isWhitespace = false) ∧
    (get_name_parts .nanV last).1 = "" ∧
    (get_name_parts first .nanV).2 = "" ∧
    (get_name_parts (.strV "") last).1 = "" ∧
    (get_name_parts first (.strV "")).2 = "" ∧
    (get_name_parts_for_matching (.strV "") last).1 = "" ∧
    (get_name_parts_for_matching first (.strV "")).2 = "" ∧
    (get_name_parts_for_matching .nanV last).1 = "nan" := by
  refine ⟨?_, ?_, ?_, ?_, rfl, rfl, rfl, rfl, rfl, rfl, rfl⟩
  · exact pyLower_noWs (definitive_clean_name_noWs first)
  · obtain ⟨t, ht, hno⟩ := clean_last_spec first last
    rw [ht]
    exact pyLower_noWs hno
  · rcases hsk : splitKeep dotOrWs (pyStr first).data with _ | ⟨w, pieces⟩
    · intro c hc
      simp [get_name_parts_for_matching, hsk, pyLower] at hc
    · have hfst : (get_name_parts_for_matching first last).1 = pyLower (String.mk w) := by
        simp [get_name_parts_for_matching, hsk]
      rw [hfst]
      exact pyLower_noWs (by
        intro c hc
        exact dotOrWs_piece_noWs (by rw [hsk]; exact List.mem_cons_self _ _) c hc)
  · have hsnd : (get_name_parts_for_matching first last).2 =
        pyLower (String.mk (lastPiece (splitKeep dotOrWs (pyStr last).data))) := rfl
    rw [hsnd]
    refine pyLower_noWs ?_
    intro c hc
    rcases lastPiece_mem_or (splitKeep dotOrWs (pyStr last).data) with h | h
    · rw [h] at hc; simp at hc
    · exact dotOrWs_piece_noWs h c hc

/-- Counterexample for C8 as frozen: in the backend normalizer a
non-string (NaN) first-name field yields the token `nan`, not the empty
token the claim requires. -/
theorem claim_C8_cex :
    (get_name_parts_for_matching .nanV (.strV "Smith")).1 = "nan" ∧
      ("nan" : String) ≠ "" := by
  exact ⟨rfl, by decide⟩

/-- Witness for C8: a concrete character of a produced token is
certified non-whitespace by the theorem. -/
theorem claim_C8_witness : ('a').isWhitespace = false :=
  (claim_C8 (.strV "Ab") (.strV "Cd")).1 'a' (by decide)

/-- C9 (idempotence/determinism): the per-record pipeline is a pure
function of the input row and the stubbed fetcher/matcher/facade
outputs: its result is independent of the accumulated log state, and
re-running the same record against the identical environment — also
starting from the log state the first run left behind — yields an
identical result record, both for the California app runner and for the
backend runner. -/
theorem claim_C9 (env : CAEnv) (envB : BEEnv) (ai : ResultData → String)
    (row : RecordRow) (log1 log2 : List String) :
    (runRecordCA env ai row log1).1 = (runRecordCA env ai row log2).1 ∧
    (runRecordCA env ai row ((runRecordCA env ai row log1).2)).1 =
      (runRecordCA env ai row log1).1 ∧
    (runRecordBE envB row log1).1 = (runRecordBE envB row log2).1 ∧
    (runRecordBE envB row ((runRecordBE envB row log1).2)).1 =
      (runRecordBE envB row log1).1 :=
  ⟨rfl, rfl, rfl, rfl⟩

/-- Membership of the email signal in the Policy A signal list reduces
to the email test itself. -/
theorem mem_signals_email (f l fi pt : String) :
    ("Name in Email" ∈ get_match_signals f l fi pt) ↔
      (findEmails pt).any (fun e => pyIn l e && pyIn (pySlice f 4) e) = true := by
  unfold get_match_signals
  split_ifs <;> simp_all

/-- Membership of the website signal in the Policy A signal list
reduces to the website test itself. -/
theorem mem_signals_website (f l fi pt : String) :
    ("Name in Website" ∈ get_match_signals f l fi pt) ↔
      (match extractWebsite pt with
        | some w => pyIn l w && pyIn (pySlice f 4) w
        | none => false) = true := by
  unfold get_match_signals
  split_ifs <;> simp_all

/-- C10 (empty first-name token, amended): when the identity's
first-name token is empty, the first-name prefix tests are vacuously
true, so in Policy A the email/website signals fire exactly on a
last-name-only substring hit; in Policy B, `Firstname in Email` is
`Yes` precisely when the page contains at least one email-like
substring, and — in the scoring path, i.e. when the exact-email
short-circuit does not fire — `Firstname in Website` is `Yes` precisely
when a website value is extracted.  (Under the short-circuit the
website components are skipped and stay `No`: see the counterexample.) -/
theorem claim_C10 (last firm ce pt : String) :
    (("Name in Email" ∈ get_match_signals "" last firm pt) ↔
      ∃ e ∈ findEmails pt, pyIn last e = true) ∧
    (∀ w, extractWebsite pt = some w →
      (("Name in Website" ∈ get_match_signals "" last firm pt) ↔
        pyIn last w = true)) ∧
    ((get_match_confidence "" last ce pt).2.firstInEmail = "Yes" ↔
      findEmails pt ≠ []) ∧
    (exactEmailHit ce pt = false →
      ((get_match_confidence "" last ce pt).2.firstInWebsite = "Yes" ↔
        extractWebsite pt ≠ none)) := by
  have hslice4 : pySlice "" 4 = "" := rfl
  have hslice3 : pySlice "" 3 = "" := rfl
  refine ⟨?_, fun w hw => ?_, ?_, fun hb => ?_⟩
  · rw [mem_signals_email]
    simp [hslice4, pyIn_empty_left, List.any_eq_true]
  · rw [mem_signals_website]
    rw [hw]
    simp [hslice4, pyIn_empty_left]
  · cases hb : exactEmailHit ce pt
    · have hred : get_match_confidence "" last ce pt =
          confidenceScorePass "" last (findEmails pt) (extractWebsite pt) := by
        simp [get_match_confidence, hb]
      rw [hred]
      unfold confidenceScorePass
      by_cases hl : findEmails pt = []
      · simp [hl]
      · have hany : (findEmails pt).any (fun e => pyIn (pySlice "" 3) e) = true := by
          rcases List.exists_mem_of_ne_nil _ hl with ⟨e, he⟩
          exact List.any_eq_true.mpr ⟨e, he, by rw [hslice3]; exact pyIn_empty_left e⟩
        simp [hany, hl]
    · have hred : get_match_confidence "" last ce pt =
          (true, ⟨"Yes", "Yes", "Yes", "No", "No"⟩) := by
        simp [get_match_confidence, hb]
      rw [hred]
      have hne : findEmails pt ≠ [] := by
        have := hb
        simp only [exactEmailHit, Bool.and_eq_true, List.any_eq_true] at this
        rcases this.2 with ⟨e, he, -⟩
        intro h0
        rw [h0] at he
        simp at he
      simp [hne]
  · have hred : get_match_confidence "" last ce pt =
        confidenceScorePass "" last (findEmails pt) (extractWebsite pt) := by
      simp [get_match_confidence, hb]
    rw [hred]
    unfold confidenceScorePass
    cases hw : extractWebsite pt
    · simp [hw]
    · simp [hw, hslice3, pyIn_empty_left]

/-- Counterexample for C10 as frozen: with an empty first-name token,
an exact-email short-circuit and an extractable website value, the
returned `Firstname in Website` component is `No` although a website
value was extracted. -/
theorem claim_C10_cex :
    (get_match_confidence "" "zz" "bob@x.com" "bob@y.com Website: w.org").2.firstInWebsite =
        "No" ∧
      extractWebsite "bob@y.com Website: w.org" = some "w.org" ∧
      exactEmailHit "bob@x.com" "bob@y.com Website: w.org" = true := by
  exact ⟨rfl, rfl, rfl⟩

/-- Witness for C10: a last-name-only email hit fires the email signal
with an empty first token, and without the short-circuit an extracted
website forces `Firstname in Website` to `Yes`. -/
theorem claim_C10_witness :
    "Name in Email" ∈ get_match_signals "" "sm" "f" "x sm@y.com" ∧
      (get_match_confidence "" "q" "noat" "Website: w.org").2.firstInWebsite = "Yes" := by
  constructor
  · exact (claim_C10 "sm" "f" "" "x sm@y.com").1.mpr (by decide)
  · exact ((claim_C10 "q" "f" "noat" "Website: w.org").2.2.2 (by decide)).mpr (by decide)
